import Mathlib

/-!
Shallow embedding of the resumable Drive-audit batch engine of
`src/Code.js` (google-drive-audit-permissions).

External collaborators (the Drive API, the script-properties store, the
trigger scheduler, the status sheet and the clock) are modelled as
oracles packaged in `Env`; the job controller logic of
`processDriveAuditBatch`, `getDriveFilesBatch`, `getFilePermissions`,
`scheduleAuditContinuation`, `deleteContinuationTriggers` and
`cancelRunningAudit` is translated function by function.  Sheet
formatting (colours, widths, merges) is presentation-only and is not
modelled; a status update is modelled by the data handed to
`updateAuditStatus`.
-/

set_option maxHeartbeats 1000000

namespace DriveAudit

/-- A permission entry as requested from the Drive API
(fields listed at src/Code.js:533). -/
structure Permission where
  type : String
  role : String
  emailAddress : Option String
  domain : Option String
  displayName : Option String
deriving Repr, DecidableEq

/-- A file object as requested from the Drive API
(fields listed at src/Code.js:460); `owners` keeps the owners' email
addresses. -/
structure DriveFile where
  id : String
  name : String
  owners : List String
  mimeType : String
  createdTime : Option String
  modifiedTime : Option String
  size : Option String
  webViewLink : Option String
deriving Repr, DecidableEq

/-- Replace the first occurrence of `pat` in `s`: JavaScript
`String.replace` with a string pattern replaces only the first match. -/
def replaceFirst (s pat rep : String) : String :=
  match s.splitOn pat with
  | [] => s
  | [_] => s
  | p :: rest => p ++ rep ++ String.intercalate pat rest

/-- JavaScript `String.includes` for non-empty patterns. -/
def strIncludes (s pat : String) : Bool :=
  (s.splitOn pat).length > 1

/-- Translation of `getFileType` (src/Code.js:552-576). -/
def getFileType (file : DriveFile) : String :=
  let mimeType := file.mimeType
  if mimeType = "application/vnd.google-apps.folder" then "Folder"
  else if mimeType.startsWith "application/vnd.google-apps." then
    "Google " ++ replaceFirst (replaceFirst mimeType "application/vnd.google-apps." "") "-" " "
  else if mimeType.startsWith "image/" then "Image"
  else if mimeType.startsWith "video/" then "Video"
  else if mimeType.startsWith "audio/" then "Audio"
  else if strIncludes mimeType "pdf" then "PDF"
  else if strIncludes mimeType "document" || strIncludes mimeType "text" then "Document"
  else if strIncludes mimeType "spreadsheet" then "Spreadsheet"
  else if strIncludes mimeType "presentation" then "Presentation"
  else "File"

/-- Outcome of one `Drive.Permissions.list` call: either the call throws,
or it returns a response whose `permissions` field may be absent. -/
inductive PermOutcome where
  | thrown
  | ok (permissions : Option (List Permission))
deriving Repr, DecidableEq

/-- Translation of `getFilePermissions` (src/Code.js:528-547): a thrown
call is caught and yields `[]`, an absent `permissions` field yields the
initial empty array. -/
def getFilePermissions (perms : String → PermOutcome) (fileId : String) : List Permission :=
  match perms fileId with
  | PermOutcome.thrown => []
  | PermOutcome.ok none => []
  | PermOutcome.ok (some ps) => ps

/-- One 15-column row of the Drive Audit sheet (src/Code.js:186-202 for
the headers, src/Code.js:260-296 for the values). -/
structure AuditRow where
  fileName : String
  fileId : String
  owner : String
  fileType : String
  mimeType : String
  createdTime : String
  modifiedTime : String
  size : String
  url : String
  permissionsCount : Nat
  permissionType : String
  permissionRole : String
  permissionEmail : String
  permissionDomain : String
  permissionDisplayName : String
deriving Repr, DecidableEq

/-- Owner column: the first owner's email address, or `Unknown`
(src/Code.js:263). -/
def ownerOf (file : DriveFile) : String :=
  match file.owners with
  | [] => "Unknown"
  | o :: _ => o

/-- The single row pushed for a file whose permission list is empty
(src/Code.js:260-276). -/
def zeroPermissionRow (file : DriveFile) : AuditRow :=
  { fileName := file.name
    fileId := file.id
    owner := ownerOf file
    fileType := getFileType file
    mimeType := file.mimeType
    createdTime := file.createdTime.getD ""
    modifiedTime := file.modifiedTime.getD ""
    size := file.size.getD ""
    url := file.webViewLink.getD ""
    permissionsCount := 0
    permissionType := ""
    permissionRole := ""
    permissionEmail := ""
    permissionDomain := ""
    permissionDisplayName := "" }

/-- The row pushed for one permission of a file (src/Code.js:279-295);
the item columns are the same as in the zero-permission row. -/
def permissionRow (file : DriveFile) (count : Nat) (p : Permission) : AuditRow :=
  { zeroPermissionRow file with
    permissionsCount := count
    permissionType := p.type
    permissionRole := p.role
    permissionEmail := p.emailAddress.getD ""
    permissionDomain := p.domain.getD ""
    permissionDisplayName := p.displayName.getD "" }

/-- Rows pushed for one file by the forEach body of the processing loop
(src/Code.js:253-298). -/
def rowsForFile (perms : String → PermOutcome) (file : DriveFile) : List AuditRow :=
  let permissions := getFilePermissions perms file.id
  if permissions.isEmpty then [zeroPermissionRow file]
  else permissions.map (permissionRow file permissions.length)

/-- Phase values persisted in `AUDIT_STATE` (src/Code.js:158,213,245,319). -/
inductive Phase where
  | SETUP
  | PROCESSING
  | FINALIZING
deriving Repr, DecidableEq

/-- The persisted `AUDIT_STATE` record (src/Code.js:157-164). -/
structure AuditState where
  phase : Phase
  totalFilesFound : Nat
  filesProcessed : Nat
  auditDataCount : Nat
  pageToken : Option String
  startTime : String
deriving Repr, DecidableEq

/-- The arguments handed to `updateAuditStatus` (src/Code.js:42); the
body only formats them into the status sheet. -/
structure StatusReport where
  status : String
  filesProcessed : Nat
  totalFiles : Nat
deriving Repr, DecidableEq

/-- Model of one `updateAuditStatus` call (src/Code.js:42-98): the
published record.  The human message text is presentation only and is
not modelled. -/
def updateAuditStatus (status : String) (filesProcessed totalFiles : Nat) : StatusReport :=
  { status := status, filesProcessed := filesProcessed, totalFiles := totalFiles }

/-- 4.5 minutes in milliseconds (src/Code.js:145). -/
def MAX_EXECUTION_TIME : Nat := 270000

/-- Hard per-invocation file cap of the processing loop (src/Code.js:226). -/
def BATCH_SIZE : Nat := 500

/-- The handler name used for continuation triggers (src/Code.js:423,445). -/
def continuationHandler : String := "processDriveAuditBatch"

/-- Outcome of one `Drive.Files.list` call: either the call throws, or it
returns a page of files and an optional next-page token. -/
inductive ListOutcome where
  | thrown
  | ok (files : List DriveFile) (nextPageToken : Option String)
deriving Repr, DecidableEq

/-- Translation of `getDriveFilesBatch` (src/Code.js:454-474): a thrown
listing call is caught and yields `none` (the JavaScript `null`). -/
def getDriveFilesBatch (listPage : Option String → ListOutcome)
    (pageToken : Option String) : Option (List DriveFile × Option String) :=
  match listPage pageToken with
  | ListOutcome.thrown => none
  | ListOutcome.ok files nextPageToken => some (files, nextPageToken)

/-- The external world of one invocation: the Drive API paging call, the
per-file permissions call, the wall clock sampled at the n-th loop check
(src/Code.js:232), whether the sheet post-processing of the FINALIZING
block (src/Code.js:343-365) throws, and the invocation start timestamp. -/
structure Env where
  listPage : Option String → ListOutcome
  perms : String → PermOutcome
  elapsedAt : Nat → Nat
  finalizeThrows : Bool
  nowIso : String

/-- Translation of `deleteContinuationTriggers` (src/Code.js:442-449):
drop every trigger whose handler is `processDriveAuditBatch`. -/
def deleteContinuationTriggers (triggers : List String) : List String :=
  triggers.filter (fun h => h != continuationHandler)

/-- Translation of `scheduleAuditContinuation` (src/Code.js:413-437):
delete existing continuation triggers, create one new trigger for the
batch handler, and report RUNNING with zero counters (src/Code.js:429-432).
Returns the new trigger list and the published report. -/
def scheduleAuditContinuation (triggers : List String) : List String × StatusReport :=
  (deleteContinuationTriggers triggers ++ [continuationHandler],
   updateAuditStatus "RUNNING" 0 0)

/-- Observable events of one invocation, in program order: a time-budget
check, a `Drive.Files.list` call, the forEach visit of one file, a
`setProperty('AUDIT_STATE', ...)` write, and a continuation-trigger
creation. -/
inductive Ev where
  | timeCheck (elapsed : Nat)
  | fetchPage (pageToken : Option String)
  | procItem (fileId : String)
  | persistState (s : AuditState)
  | scheduleContinuation
deriving Repr, DecidableEq

/-- How the processing while-loop (src/Code.js:230-325) was left:
`timedOut` is the in-loop return at src/Code.js:237, `exhausted` means
the phase was set to FINALIZING, `capped` means the
`filesInThisBatch < BATCH_SIZE` guard stopped the loop, and `fuelOut` is
the artificial out-of-fuel stop of the embedding (unreachable from the
entry fuel, see `procLoop_no_fuelOut`). -/
inductive LoopExit where
  | timedOut
  | exhausted
  | capped
  | fuelOut
deriving Repr, DecidableEq

/-- Result of running the processing loop. -/
structure LoopResult where
  state : AuditState
  rows : List AuditRow
  reports : List StatusReport
  trace : List Ev
  triggers : List String
  exit : LoopExit
deriving Repr, DecidableEq

/-- The processing while-loop of `processDriveAuditBatch`
(src/Code.js:230-325), entered with `continueProcessing = true` and
`filesInBatch < BATCH_SIZE` (both hold at the first entry).  `fuel`
bounds the recursion depth of the embedding only: every iteration of the
source loop adds at least one processed file and re-enters only while
`filesInBatch < BATCH_SIZE`, so the loop runs at most `BATCH_SIZE` more
iterations; `procLoop_no_fuelOut` shows the fuel bound is never hit from
the entry fuel `BATCH_SIZE + 1`. -/
def procLoop (env : Env) (fuel : Nat) (checkIdx : Nat) (st : AuditState)
    (filesInBatch : Nat) (triggers : List String) : LoopResult :=
  match fuel with
  | 0 =>
    { state := st, rows := [], reports := [], trace := [],
      triggers := triggers, exit := LoopExit.fuelOut }
  | fuel + 1 =>
    -- src/Code.js:232-238: check execution time once, at the top
    let elapsedTime := env.elapsedAt checkIdx
    if MAX_EXECUTION_TIME < elapsedTime then
      let sched := scheduleAuditContinuation triggers
      { state := st, rows := [], reports := [sched.2],
        trace := [Ev.timeCheck elapsedTime, Ev.persistState st, Ev.scheduleContinuation],
        triggers := sched.1, exit := LoopExit.timedOut }
    else
      -- src/Code.js:241: fetch the next page of files
      match getDriveFilesBatch env.listPage st.pageToken with
      | none =>
        -- src/Code.js:243-247: null response: phase FINALIZING, break
        { state := { st with phase := Phase.FINALIZING }, rows := [],
          reports := [],
          trace := [Ev.timeCheck elapsedTime, Ev.fetchPage st.pageToken],
          triggers := triggers, exit := LoopExit.exhausted }
      | some (files, nextPageToken) =>
        match files with
        | [] =>
          -- src/Code.js:243-247: empty page: phase FINALIZING, break
          { state := { st with phase := Phase.FINALIZING }, rows := [],
            reports := [],
            trace := [Ev.timeCheck elapsedTime, Ev.fetchPage st.pageToken],
            triggers := triggers, exit := LoopExit.exhausted }
        | f :: fs =>
          -- src/Code.js:252-298: forEach over the page
          let pageRows := (f :: fs).flatMap (rowsForFile env.perms)
          let filesProcessed := st.filesProcessed + (f :: fs).length
          let filesInBatch2 := filesInBatch + (f :: fs).length
          -- src/Code.js:301-305: append rows, bump auditDataCount
          let auditDataCount :=
            if pageRows.isEmpty then st.auditDataCount
            else st.auditDataCount + pageRows.length
          -- src/Code.js:309: advance the page token
          let st1 : AuditState :=
            { st with filesProcessed := filesProcessed,
                      auditDataCount := auditDataCount,
                      pageToken := nextPageToken }
          -- src/Code.js:312-314: progress report every 50 files
          let cadence : List StatusReport :=
            if filesProcessed % 50 = 0 then [updateAuditStatus "RUNNING" filesProcessed 0]
            else []
          -- src/Code.js:317-321: no more pages: phase FINALIZING
          let st2 : AuditState :=
            if nextPageToken.isNone then { st1 with phase := Phase.FINALIZING } else st1
          -- src/Code.js:324: persist state at the end of every iteration
          let headTrace :=
            [Ev.timeCheck elapsedTime, Ev.fetchPage st.pageToken]
              ++ (f :: fs).map (fun file => Ev.procItem file.id)
              ++ [Ev.persistState st2]
          match nextPageToken with
          | none =>
            { state := st2, rows := pageRows, reports := cadence,
              trace := headTrace, triggers := triggers, exit := LoopExit.exhausted }
          | some _ =>
            if filesInBatch2 < BATCH_SIZE then
              let rest := procLoop env fuel (checkIdx + 1) st2 filesInBatch2 triggers
              { state := rest.state, rows := pageRows ++ rest.rows,
                reports := cadence ++ rest.reports,
                trace := headTrace ++ rest.trace,
                triggers := rest.triggers, exit := rest.exit }
            else
              { state := st2, rows := pageRows, reports := cadence,
                trace := headTrace, triggers := triggers, exit := LoopExit.capped }

/-- Result of one invocation of the batch processor: the `AUDIT_STATE`
left in the script-properties store, the rows appended to the Drive
Audit sheet, the status updates in order, the event trace, the trigger
list, and whether the FINALIZING block was entered. -/
structure InvResult where
  state : Option AuditState
  rows : List AuditRow
  reports : List StatusReport
  trace : List Ev
  triggers : List String
  enteredFinalizing : Bool
deriving Repr, DecidableEq

/-- The FINALIZING block (src/Code.js:338-392) together with the
top-level catch (src/Code.js:394-406): the block first reports RUNNING
(src/Code.js:340); if the sheet post-processing throws, the catch
reports ERROR with zero counters and clears state and triggers
(src/Code.js:400-405); otherwise the block reports COMPLETED and clears
state and triggers (src/Code.js:377-389). -/
def finalizeAudit (env : Env) (st : AuditState) (traceAcc : List Ev)
    (reportsAcc : List StatusReport) (rowsAcc : List AuditRow)
    (triggers : List String) : InvResult :=
  let finalizingReport := updateAuditStatus "RUNNING" st.filesProcessed st.filesProcessed
  if env.finalizeThrows then
    { state := none, rows := rowsAcc,
      reports := reportsAcc ++ [finalizingReport, updateAuditStatus "ERROR" 0 0],
      trace := traceAcc, triggers := deleteContinuationTriggers triggers,
      enteredFinalizing := true }
  else
    { state := none, rows := rowsAcc,
      reports := reportsAcc
        ++ [finalizingReport,
            updateAuditStatus "COMPLETED" st.filesProcessed st.filesProcessed],
      trace := traceAcc, triggers := deleteContinuationTriggers triggers,
      enteredFinalizing := true }

/-- The PROCESSING phase of `processDriveAuditBatch`
(src/Code.js:218-335) together with the fall-through into the FINALIZING
block of the same invocation: report RUNNING with the current counter
(src/Code.js:220-222), run the batch loop, then dispatch on how the loop
was left. -/
def processingPhase (env : Env) (st : AuditState) (setupTrace : List Ev)
    (triggers : List String) : InvResult :=
  let startReport := updateAuditStatus "RUNNING" st.filesProcessed 0
  let lr := procLoop env (BATCH_SIZE + 1) 0 st 0 triggers
  match lr.exit with
  | LoopExit.timedOut =>
    -- src/Code.js:233-238: state persisted and continuation scheduled
    -- inside the loop; the invocation returns
    { state := some lr.state, rows := lr.rows,
      reports := startReport :: lr.reports,
      trace := setupTrace ++ lr.trace, triggers := lr.triggers,
      enteredFinalizing := false }
  | LoopExit.exhausted =>
    -- phase is FINALIZING: fall through to the FINALIZING block
    finalizeAudit env lr.state (setupTrace ++ lr.trace)
      (startReport :: lr.reports) lr.rows lr.triggers
  | LoopExit.capped =>
    -- src/Code.js:328-334: still PROCESSING: persist, schedule, return
    { state := some lr.state, rows := lr.rows,
      reports := startReport :: (lr.reports ++ [(scheduleAuditContinuation lr.triggers).2]),
      trace := setupTrace ++ lr.trace
        ++ [Ev.persistState lr.state, Ev.scheduleContinuation],
      triggers := (scheduleAuditContinuation lr.triggers).1,
      enteredFinalizing := false }
  | LoopExit.fuelOut =>
    -- unreachable from the entry fuel; the phase is still PROCESSING so
    -- the source persists, schedules and returns exactly as when capped
    { state := some lr.state, rows := lr.rows,
      reports := startReport :: (lr.reports ++ [(scheduleAuditContinuation lr.triggers).2]),
      trace := setupTrace ++ lr.trace
        ++ [Ev.persistState lr.state, Ev.scheduleContinuation],
      triggers := (scheduleAuditContinuation lr.triggers).1,
      enteredFinalizing := false }

/-- Translation of `processDriveAuditBatch` (src/Code.js:140-407): one
invocation of the batch processor, given the stored `AUDIT_STATE` (or
`none` on a fresh run) and the current trigger list.  The source runs
three sequential phase checks with fall-through (SETUP at src/Code.js:174,
PROCESSING at src/Code.js:218, FINALIZING at src/Code.js:338); since the
SETUP block always leaves the phase at PROCESSING (src/Code.js:213) and
persists (src/Code.js:214), the sequential checks are dispatched here on
the loaded phase. -/
def processDriveAuditBatch (env : Env) (stored : Option AuditState)
    (triggers : List String) : InvResult :=
  -- src/Code.js:152-169: load or initialize the audit state
  let auditState : AuditState :=
    match stored with
    | none =>
      { phase := Phase.SETUP, totalFilesFound := 0, filesProcessed := 0,
        auditDataCount := 0, pageToken := none, startTime := env.nowIso }
    | some s => s
  match auditState.phase with
  | Phase.SETUP =>
    -- src/Code.js:174-215: prepare the sheet, set phase PROCESSING,
    -- persist, then fall into the PROCESSING block
    let s := { auditState with phase := Phase.PROCESSING }
    processingPhase env s [Ev.persistState s] triggers
  | Phase.PROCESSING =>
    processingPhase env auditState [] triggers
  | Phase.FINALIZING =>
    -- src/Code.js:338-392: FINALIZING entered directly from stored state
    finalizeAudit env auditState [] [] [] triggers

/-- Outcome of the cancel operation. -/
inductive CancelOutcome where
  | noAuditRunning
  | cancelled
  | declined
deriving Repr, DecidableEq

/-- Result of the cancel operation. -/
structure CancelResult where
  state : Option AuditState
  triggers : List String
  reports : List StatusReport
  rows : List AuditRow
  outcome : CancelOutcome
deriving Repr, DecidableEq

/-- Translation of `cancelRunningAudit` (src/Code.js:734-795): with no
stored state it alerts and returns without error (`noAuditRunning`);
with stored state and a confirming user it deletes the state, deletes
the continuation triggers and reports CANCELLED with zero counters; the
rows already written to the audit sheet are passed through untouched. -/
def cancelRunningAudit (stored : Option AuditState) (triggers : List String)
    (rows : List AuditRow) (confirm : Bool) : CancelResult :=
  match stored with
  | none =>
    { state := none, triggers := triggers, reports := [], rows := rows,
      outcome := CancelOutcome.noAuditRunning }
  | some s =>
    if confirm then
      { state := none, triggers := deleteContinuationTriggers triggers,
        reports := [updateAuditStatus "CANCELLED" 0 0], rows := rows,
        outcome := CancelOutcome.cancelled }
    else
      { state := some s, triggers := triggers, reports := [], rows := rows,
        outcome := CancelOutcome.declined }

end DriveAudit

namespace DriveAudit

/-! ### Concrete environments used to exercise the model -/

/-- A small synthetic Drive file. -/
def mkFile (n : Nat) : DriveFile :=
  { id := toString n, name := "f", owners := [], mimeType := "x",
    createdTime := none, modifiedTime := none, size := none, webViewLink := none }

/-- `count` synthetic files with ids `start`, `start+1`, ... -/
def mkFiles (start count : Nat) : List DriveFile :=
  (List.range count).map (fun k => mkFile (start + k))

/-- A mid-flight PROCESSING state with the given counters and cursor. -/
def procState (fp : Nat) (tok : Option String) : AuditState :=
  { phase := Phase.PROCESSING, totalFilesFound := 0, filesProcessed := fp,
    auditDataCount := fp, pageToken := tok, startTime := "" }

/-- An environment whose paging call always throws. -/
def envThrown : Env :=
  { listPage := fun _ => ListOutcome.thrown
    perms := fun _ => PermOutcome.ok none
    elapsedAt := fun _ => 0
    finalizeThrows := false
    nowIso := "" }

/-- An environment already over the time budget at the first check. -/
def envTimeout : Env :=
  { listPage := fun _ => ListOutcome.ok [] none
    perms := fun _ => PermOutcome.ok none
    elapsedAt := fun _ => 300000
    finalizeThrows := false
    nowIso := "" }

/-- An environment with an empty drive whose sheet post-processing in the
FINALIZING block throws. -/
def envFinThrow : Env :=
  { listPage := fun _ => ListOutcome.ok [] none
    perms := fun _ => PermOutcome.ok none
    elapsedAt := fun _ => 0
    finalizeThrows := true
    nowIso := "" }

def fileA : DriveFile := { mkFile 1 with id := "a" }

def fileB : DriveFile := { mkFile 2 with id := "b" }

def fileC : DriveFile := { mkFile 3 with id := "c" }

/-- A user permission granted to `em`. -/
def permUser (em : String) : Permission :=
  { type := "user", role := "reader", emailAddress := some em,
    domain := none, displayName := none }

/-- Scenario C of the spec: one page of three files whose permission
fetches yield two permissions, a thrown call, and one permission. -/
def envScenarioC : Env :=
  { listPage := fun tok =>
      match tok with
      | none => ListOutcome.ok [fileA, fileB, fileC] none
      | some _ => ListOutcome.ok [] none
    perms := fun fid =>
      if fid = "a" then PermOutcome.ok (some [permUser "x", permUser "y"])
      else if fid = "b" then PermOutcome.thrown
      else PermOutcome.ok (some [permUser "z"])
    elapsedAt := fun _ => 0
    finalizeThrows := false
    nowIso := "" }

/-- An environment with pages of 99, 100, 100, 100, 100, 100 files (the
page is selected by the length of the cursor string), under no time
pressure. -/
def envCap : Env :=
  { listPage := fun tok =>
      match tok with
      | none => ListOutcome.ok (mkFiles 0 99) (some "x")
      | some s =>
        if s.length = 1 then ListOutcome.ok (mkFiles 99 100) (some "xx")
        else if s.length = 2 then ListOutcome.ok (mkFiles 199 100) (some "xxx")
        else if s.length = 3 then ListOutcome.ok (mkFiles 299 100) (some "xxxx")
        else if s.length = 4 then ListOutcome.ok (mkFiles 399 100) (some "xxxxx")
        else if s.length = 5 then ListOutcome.ok (mkFiles 499 100) (some "xxxxxx")
        else ListOutcome.ok [] none
    perms := fun _ => PermOutcome.ok none
    elapsedAt := fun _ => 0
    finalizeThrows := false
    nowIso := "" }

/-- The files-processed counter held in the store, zero when no state is
stored. -/
def storedFilesProcessed : Option AuditState → Nat
  | none => 0
  | some s => s.filesProcessed

/-! ### Helper lemmas -/

lemma continuationHandler_not_mem_delete (ts : List String) :
    continuationHandler ∉ deleteContinuationTriggers ts := by
  simp [deleteContinuationTriggers]

lemma count_schedule (ts : List String) :
    (deleteContinuationTriggers ts ++ [continuationHandler]).count continuationHandler = 1 := by
  rw [List.count_append]
  have h0 : (deleteContinuationTriggers ts).count continuationHandler = 0 :=
    List.count_eq_zero.mpr (continuationHandler_not_mem_delete ts)
  simp [h0]

end DriveAudit

namespace DriveAudit

lemma procLoop_timedOut (env : Env) (fuel checkIdx filesInBatch : Nat) (st : AuditState)
    (ts : List String) (h : MAX_EXECUTION_TIME < env.elapsedAt checkIdx) :
    procLoop env (fuel + 1) checkIdx st filesInBatch ts =
      { state := st, rows := [], reports := [updateAuditStatus "RUNNING" 0 0],
        trace := [Ev.timeCheck (env.elapsedAt checkIdx), Ev.persistState st,
                  Ev.scheduleContinuation],
        triggers := deleteContinuationTriggers ts ++ [continuationHandler],
        exit := LoopExit.timedOut } := by
  simp only [procLoop, if_pos h, scheduleAuditContinuation]

lemma procLoop_thrown (env : Env) (fuel checkIdx filesInBatch : Nat) (st : AuditState)
    (ts : List String) (ht : ¬ MAX_EXECUTION_TIME < env.elapsedAt checkIdx)
    (hL : env.listPage st.pageToken = ListOutcome.thrown) :
    procLoop env (fuel + 1) checkIdx st filesInBatch ts =
      { state := { st with phase := Phase.FINALIZING }, rows := [], reports := [],
        trace := [Ev.timeCheck (env.elapsedAt checkIdx), Ev.fetchPage st.pageToken],
        triggers := ts, exit := LoopExit.exhausted } := by
  simp only [procLoop, if_neg ht, getDriveFilesBatch, hL]

lemma procLoop_emptyPage (env : Env) (fuel checkIdx filesInBatch : Nat) (st : AuditState)
    (ts : List String) (next : Option String)
    (ht : ¬ MAX_EXECUTION_TIME < env.elapsedAt checkIdx)
    (hL : env.listPage st.pageToken = ListOutcome.ok [] next) :
    procLoop env (fuel + 1) checkIdx st filesInBatch ts =
      { state := { st with phase := Phase.FINALIZING }, rows := [], reports := [],
        trace := [Ev.timeCheck (env.elapsedAt checkIdx), Ev.fetchPage st.pageToken],
        triggers := ts, exit := LoopExit.exhausted } := by
  simp only [procLoop, if_neg ht, getDriveFilesBatch, hL]

lemma status_of_mem_cadence {c : Prop} [Decidable c] {fp : Nat} {r : StatusReport}
    (hr : r ∈ (if c then [updateAuditStatus "RUNNING" fp 0] else ([] : List StatusReport))) :
    r.status = "RUNNING" := by
  split at hr
  · simp only [List.mem_singleton] at hr
    rw [hr]
    rfl
  · simp at hr

lemma procLoop_reports_running (env : Env) (fuel : Nat) :
    ∀ (checkIdx filesInBatch : Nat) (st : AuditState) (ts : List String),
      ∀ r ∈ (procLoop env fuel checkIdx st filesInBatch ts).reports, r.status = "RUNNING" := by
  induction fuel with
  | zero => intro checkIdx filesInBatch st ts r hr; simp [procLoop] at hr
  | succ fuel ih =>
    intro checkIdx filesInBatch st ts r hr
    rw [procLoop] at hr
    by_cases h : MAX_EXECUTION_TIME < env.elapsedAt checkIdx
    · simp only [if_pos h, scheduleAuditContinuation] at hr
      simp only [List.mem_singleton] at hr
      rw [hr]
      rfl
    · simp only [if_neg h] at hr
      rcases hL : env.listPage st.pageToken with _ | ⟨files, next⟩
      · simp [getDriveFilesBatch, hL] at hr
      · rcases files with _ | ⟨f, fs⟩
        · simp [getDriveFilesBatch, hL] at hr
        · simp only [getDriveFilesBatch, hL] at hr
          rcases next with _ | tk
          · exact status_of_mem_cadence hr
          · by_cases hb : filesInBatch + (f :: fs).length < BATCH_SIZE
            · simp only [if_pos hb] at hr
              try dsimp only at hr
              rcases List.mem_append.mp hr with hc | hrest
              · exact status_of_mem_cadence hc
              · exact ih _ _ _ _ r hrest
            · simp only [if_neg hb] at hr
              try dsimp only at hr
              exact status_of_mem_cadence hr

end DriveAudit

namespace DriveAudit

/-- Fresh invocation: SETUP runs and falls into PROCESSING. -/
lemma pdb_none (env : Env) (ts : List String) :
    processDriveAuditBatch env none ts =
      processingPhase env
        { phase := Phase.PROCESSING, totalFilesFound := 0, filesProcessed := 0,
          auditDataCount := 0, pageToken := none, startTime := env.nowIso }
        [Ev.persistState
          { phase := Phase.PROCESSING, totalFilesFound := 0, filesProcessed := 0,
            auditDataCount := 0, pageToken := none, startTime := env.nowIso }] ts := rfl

/-- Stored SETUP state: SETUP runs and falls into PROCESSING. -/
lemma pdb_setup (env : Env) (s : AuditState) (ts : List String)
    (hph : s.phase = Phase.SETUP) :
    processDriveAuditBatch env (some s) ts =
      processingPhase env { s with phase := Phase.PROCESSING }
        [Ev.persistState { s with phase := Phase.PROCESSING }] ts := by
  simp only [processDriveAuditBatch]
  rw [hph]

/-- Stored PROCESSING state: straight into the processing loop. -/
lemma pdb_processing (env : Env) (s : AuditState) (ts : List String)
    (hph : s.phase = Phase.PROCESSING) :
    processDriveAuditBatch env (some s) ts = processingPhase env s [] ts := by
  simp only [processDriveAuditBatch]
  rw [hph]

/-- Stored FINALIZING state: straight into the FINALIZING block. -/
lemma pdb_finalizing (env : Env) (s : AuditState) (ts : List String)
    (hph : s.phase = Phase.FINALIZING) :
    processDriveAuditBatch env (some s) ts = finalizeAudit env s [] [] [] ts := by
  simp only [processDriveAuditBatch]
  rw [hph]

lemma processingPhase_timedOut (env : Env) (st : AuditState) (setupTrace : List Ev)
    (ts : List String) (hE : (procLoop env (BATCH_SIZE + 1) 0 st 0 ts).exit = LoopExit.timedOut) :
    processingPhase env st setupTrace ts =
      { state := some (procLoop env (BATCH_SIZE + 1) 0 st 0 ts).state,
        rows := (procLoop env (BATCH_SIZE + 1) 0 st 0 ts).rows,
        reports := updateAuditStatus "RUNNING" st.filesProcessed 0
          :: (procLoop env (BATCH_SIZE + 1) 0 st 0 ts).reports,
        trace := setupTrace ++ (procLoop env (BATCH_SIZE + 1) 0 st 0 ts).trace,
        triggers := (procLoop env (BATCH_SIZE + 1) 0 st 0 ts).triggers,
        enteredFinalizing := false } := by
  simp only [processingPhase]
  rw [hE]

lemma processingPhase_exhausted (env : Env) (st : AuditState) (setupTrace : List Ev)
    (ts : List String) (hE : (procLoop env (BATCH_SIZE + 1) 0 st 0 ts).exit = LoopExit.exhausted) :
    processingPhase env st setupTrace ts =
      finalizeAudit env (procLoop env (BATCH_SIZE + 1) 0 st 0 ts).state
        (setupTrace ++ (procLoop env (BATCH_SIZE + 1) 0 st 0 ts).trace)
        (updateAuditStatus "RUNNING" st.filesProcessed 0
          :: (procLoop env (BATCH_SIZE + 1) 0 st 0 ts).reports)
        (procLoop env (BATCH_SIZE + 1) 0 st 0 ts).rows
        (procLoop env (BATCH_SIZE + 1) 0 st 0 ts).triggers := by
  simp only [processingPhase]
  rw [hE]

lemma processingPhase_capped (env : Env) (st : AuditState) (setupTrace : List Ev)
    (ts : List String) (hE : (procLoop env (BATCH_SIZE + 1) 0 st 0 ts).exit = LoopExit.capped) :
    processingPhase env st setupTrace ts =
      { state := some (procLoop env (BATCH_SIZE + 1) 0 st 0 ts).state,
        rows := (procLoop env (BATCH_SIZE + 1) 0 st 0 ts).rows,
        reports := updateAuditStatus "RUNNING" st.filesProcessed 0
          :: ((procLoop env (BATCH_SIZE + 1) 0 st 0 ts).reports
              ++ [updateAuditStatus "RUNNING" 0 0]),
        trace := setupTrace ++ (procLoop env (BATCH_SIZE + 1) 0 st 0 ts).trace
          ++ [Ev.persistState (procLoop env (BATCH_SIZE + 1) 0 st 0 ts).state,
              Ev.scheduleContinuation],
        triggers := deleteContinuationTriggers (procLoop env (BATCH_SIZE + 1) 0 st 0 ts).triggers
          ++ [continuationHandler],
        enteredFinalizing := false } := by
  simp only [processingPhase, scheduleAuditContinuation]
  rw [hE]

lemma processingPhase_fuelOut (env : Env) (st : AuditState) (setupTrace : List Ev)
    (ts : List String) (hE : (procLoop env (BATCH_SIZE + 1) 0 st 0 ts).exit = LoopExit.fuelOut) :
    processingPhase env st setupTrace ts =
      { state := some (procLoop env (BATCH_SIZE + 1) 0 st 0 ts).state,
        rows := (procLoop env (BATCH_SIZE + 1) 0 st 0 ts).rows,
        reports := updateAuditStatus "RUNNING" st.filesProcessed 0
          :: ((procLoop env (BATCH_SIZE + 1) 0 st 0 ts).reports
              ++ [updateAuditStatus "RUNNING" 0 0]),
        trace := setupTrace ++ (procLoop env (BATCH_SIZE + 1) 0 st 0 ts).trace
          ++ [Ev.persistState (procLoop env (BATCH_SIZE + 1) 0 st 0 ts).state,
              Ev.scheduleContinuation],
        triggers := deleteContinuationTriggers (procLoop env (BATCH_SIZE + 1) 0 st 0 ts).triggers
          ++ [continuationHandler],
        enteredFinalizing := false } := by
  simp only [processingPhase, scheduleAuditContinuation]
  rw [hE]

end DriveAudit

namespace DriveAudit

lemma finalizeAudit_state (env : Env) (st : AuditState) (tr : List Ev)
    (re : List StatusReport) (ro : List AuditRow) (tg : List String) :
    (finalizeAudit env st tr re ro tg).state = none := by
  simp only [finalizeAudit]
  split <;> rfl

lemma finalizeAudit_triggers (env : Env) (st : AuditState) (tr : List Ev)
    (re : List StatusReport) (ro : List AuditRow) (tg : List String) :
    (finalizeAudit env st tr re ro tg).triggers = deleteContinuationTriggers tg := by
  simp only [finalizeAudit]
  split <;> rfl

lemma finalizeAudit_entered (env : Env) (st : AuditState) (tr : List Ev)
    (re : List StatusReport) (ro : List AuditRow) (tg : List String) :
    (finalizeAudit env st tr re ro tg).enteredFinalizing = true := by
  simp only [finalizeAudit]
  split <;> rfl

lemma finalizeAudit_reports (env : Env) (st : AuditState) (tr : List Ev)
    (re : List StatusReport) (ro : List AuditRow) (tg : List String) :
    (finalizeAudit env st tr re ro tg).reports =
      re ++ [updateAuditStatus "RUNNING" st.filesProcessed st.filesProcessed,
             if env.finalizeThrows then updateAuditStatus "ERROR" 0 0
             else updateAuditStatus "COMPLETED" st.filesProcessed st.filesProcessed] := by
  cases h : env.finalizeThrows <;> simp [finalizeAudit, h]

lemma processingPhase_running_or_finalize (env : Env) (st : AuditState)
    (setupTrace : List Ev) (ts : List String) :
    (∃ st0 trace reportsAcc rows trig,
        processingPhase env st setupTrace ts = finalizeAudit env st0 trace reportsAcc rows trig
        ∧ ∀ r ∈ reportsAcc, r.status = "RUNNING")
    ∨ ((processingPhase env st setupTrace ts).enteredFinalizing = false
        ∧ ∀ r ∈ (processingPhase env st setupTrace ts).reports, r.status = "RUNNING") := by
  rcases hE : (procLoop env (BATCH_SIZE + 1) 0 st 0 ts).exit
  · right
    rw [processingPhase_timedOut env st setupTrace ts hE]
    refine ⟨rfl, ?_⟩
    intro r hr
    rcases List.mem_cons.mp hr with rfl | hr2
    · rfl
    · exact procLoop_reports_running env _ _ _ _ _ r hr2
  · left
    refine ⟨_, _, _, _, _, processingPhase_exhausted env st setupTrace ts hE, ?_⟩
    intro r hr
    rcases List.mem_cons.mp hr with rfl | hr2
    · rfl
    · exact procLoop_reports_running env _ _ _ _ _ r hr2
  · right
    rw [processingPhase_capped env st setupTrace ts hE]
    refine ⟨rfl, ?_⟩
    intro r hr
    rcases List.mem_cons.mp hr with rfl | hr2
    · rfl
    · rcases List.mem_append.mp hr2 with h3 | h3
      · exact procLoop_reports_running env _ _ _ _ _ r h3
      · rw [List.mem_singleton.mp h3]
        rfl
  · right
    rw [processingPhase_fuelOut env st setupTrace ts hE]
    refine ⟨rfl, ?_⟩
    intro r hr
    rcases List.mem_cons.mp hr with rfl | hr2
    · rfl
    · rcases List.mem_append.mp hr2 with h3 | h3
      · exact procLoop_reports_running env _ _ _ _ _ r h3
      · rw [List.mem_singleton.mp h3]
        rfl

lemma pdb_running_or_finalize (env : Env) (stored : Option AuditState) (ts : List String) :
    (∃ st0 trace reportsAcc rows trig,
        processDriveAuditBatch env stored ts = finalizeAudit env st0 trace reportsAcc rows trig
        ∧ ∀ r ∈ reportsAcc, r.status = "RUNNING")
    ∨ ((processDriveAuditBatch env stored ts).enteredFinalizing = false
        ∧ ∀ r ∈ (processDriveAuditBatch env stored ts).reports, r.status = "RUNNING") := by
  rcases stored with _ | s
  · rw [pdb_none]
    exact processingPhase_running_or_finalize env _ _ ts
  · rcases hph : s.phase
    · rw [pdb_setup env s ts hph]
      exact processingPhase_running_or_finalize env _ _ ts
    · rw [pdb_processing env s ts hph]
      exact processingPhase_running_or_finalize env _ _ ts
    · rw [pdb_finalizing env s ts hph]
      left
      refine ⟨_, _, _, _, _, rfl, ?_⟩
      intro r hr
      simp at hr

end DriveAudit

namespace DriveAudit

/-- The artificial out-of-fuel stop of the embedding is unreachable when
the fuel exceeds the remaining room under the batch cap: every source
loop iteration adds at least one processed file and only re-enters while
`filesInBatch < BATCH_SIZE`. -/
lemma procLoop_no_fuelOut (env : Env) (fuel : Nat) :
    ∀ (checkIdx filesInBatch : Nat) (st : AuditState) (ts : List String),
      filesInBatch < BATCH_SIZE → BATCH_SIZE < filesInBatch + fuel →
      (procLoop env fuel checkIdx st filesInBatch ts).exit ≠ LoopExit.fuelOut := by
  induction fuel with
  | zero =>
    intro checkIdx filesInBatch st ts hlt hf
    omega
  | succ fuel ih =>
    intro checkIdx filesInBatch st ts hlt hf
    rw [procLoop]
    by_cases h : MAX_EXECUTION_TIME < env.elapsedAt checkIdx
    · simp [if_pos h]
    · simp only [if_neg h]
      rcases hL : env.listPage st.pageToken with _ | ⟨files, next⟩
      · simp [getDriveFilesBatch, hL]
      · rcases files with _ | ⟨f, fs⟩
        · simp [getDriveFilesBatch, hL]
        · simp only [getDriveFilesBatch, hL]
          rcases next with _ | tk
          · simp
          · by_cases hb : filesInBatch + (f :: fs).length < BATCH_SIZE
            · simp only [if_pos hb]
              intro hx
              exact ih (checkIdx + 1) (filesInBatch + (f :: fs).length) _ ts hb
                (by simp only [BATCH_SIZE, List.length_cons] at *; omega) hx
            · simp only [if_neg hb]
              simp

/-- Per-invocation growth of the processed-files counter: when every
page the listing call can return holds at most 100 files (the requested
page size, src/Code.js:241 calls with page size 100), a run of the loop
entered with `filesInBatch < BATCH_SIZE` raises `filesProcessed` by at
most the room left under the cap plus one final page. -/
lemma procLoop_filesProcessed_bound (env : Env)
    (hpages : ∀ tok files next, env.listPage tok = ListOutcome.ok files next →
      files.length ≤ 100) (fuel : Nat) :
    ∀ (checkIdx filesInBatch : Nat) (st : AuditState) (ts : List String),
      filesInBatch < BATCH_SIZE →
      (procLoop env fuel checkIdx st filesInBatch ts).state.filesProcessed
        ≤ st.filesProcessed + (BATCH_SIZE - 1 - filesInBatch) + 100 := by
  induction fuel with
  | zero =>
    intro checkIdx filesInBatch st ts hlt
    show st.filesProcessed ≤ st.filesProcessed + (BATCH_SIZE - 1 - filesInBatch) + 100
    omega
  | succ fuel ih =>
    intro checkIdx filesInBatch st ts hlt
    rw [procLoop]
    by_cases h : MAX_EXECUTION_TIME < env.elapsedAt checkIdx
    · simp only [if_pos h]
      show st.filesProcessed ≤ st.filesProcessed + (BATCH_SIZE - 1 - filesInBatch) + 100
      omega
    · simp only [if_neg h]
      rcases hL : env.listPage st.pageToken with _ | ⟨files, next⟩
      · simp only [getDriveFilesBatch, hL]
        show st.filesProcessed ≤ st.filesProcessed + (BATCH_SIZE - 1 - filesInBatch) + 100
        omega
      · rcases files with _ | ⟨f, fs⟩
        · simp only [getDriveFilesBatch, hL]
          show st.filesProcessed ≤ st.filesProcessed + (BATCH_SIZE - 1 - filesInBatch) + 100
          omega
        · simp only [getDriveFilesBatch, hL]
          have hlen : (f :: fs).length ≤ 100 := hpages _ _ _ hL
          rcases next with _ | tk
          · have key : ∀ n : Nat, n = st.filesProcessed + (f :: fs).length →
                n ≤ st.filesProcessed + (BATCH_SIZE - 1 - filesInBatch) + 100 := by
              intro n hn
              simp only [BATCH_SIZE] at *
              omega
            exact key _ rfl
          · by_cases hb : filesInBatch + (f :: fs).length < BATCH_SIZE
            · simp only [if_pos hb]
              have key : ∀ s2 : AuditState,
                  s2.filesProcessed = st.filesProcessed + (f :: fs).length →
                  (procLoop env fuel (checkIdx + 1) s2
                      (filesInBatch + (f :: fs).length) ts).state.filesProcessed
                    ≤ st.filesProcessed + (BATCH_SIZE - 1 - filesInBatch) + 100 := by
                intro s2 hs2
                have hihb := ih (checkIdx + 1) (filesInBatch + (f :: fs).length) s2 ts hb
                rw [hs2] at hihb
                simp only [BATCH_SIZE] at *
                omega
              exact key _ rfl
            · simp only [if_neg hb]
              have key : ∀ n : Nat, n = st.filesProcessed + (f :: fs).length →
                  n ≤ st.filesProcessed + (BATCH_SIZE - 1 - filesInBatch) + 100 := by
                intro n hn
                simp only [BATCH_SIZE] at *
                omega
              exact key _ rfl

/-- A loop left by the batch-size guard keeps the phase it entered with:
the cap exit happens only with a continuation token present, so the
phase was not moved to FINALIZING. -/
lemma procLoop_capped_phase (env : Env) (fuel : Nat) :
    ∀ (checkIdx filesInBatch : Nat) (st : AuditState) (ts : List String),
      (procLoop env fuel checkIdx st filesInBatch ts).exit = LoopExit.capped →
      (procLoop env fuel checkIdx st filesInBatch ts).state.phase = st.phase := by
  induction fuel with
  | zero =>
    intro checkIdx filesInBatch st ts hexit
    simp [procLoop] at hexit
  | succ fuel ih =>
    intro checkIdx filesInBatch st ts
    rw [procLoop]
    by_cases h : MAX_EXECUTION_TIME < env.elapsedAt checkIdx
    · simp [if_pos h]
    · simp only [if_neg h]
      rcases hL : env.listPage st.pageToken with _ | ⟨files, next⟩
      · simp [getDriveFilesBatch, hL]
      · rcases files with _ | ⟨f, fs⟩
        · simp [getDriveFilesBatch, hL]
        · simp only [getDriveFilesBatch, hL]
          rcases next with _ | tk
          · simp
          · by_cases hb : filesInBatch + (f :: fs).length < BATCH_SIZE
            · simp only [if_pos hb]
              intro hexit
              have key : ∀ s2 : AuditState, s2.phase = st.phase →
                  (procLoop env fuel (checkIdx + 1) s2
                      (filesInBatch + (f :: fs).length) ts).exit = LoopExit.capped →
                  (procLoop env fuel (checkIdx + 1) s2
                      (filesInBatch + (f :: fs).length) ts).state.phase = st.phase := by
                intro s2 hs2 hx
                rw [ih (checkIdx + 1) (filesInBatch + (f :: fs).length) s2 ts hx]
                exact hs2
              exact key _ rfl hexit
            · simp only [if_neg hb]
              intro hexit
              rfl

end DriveAudit

namespace DriveAudit

/-- C2: for every item processed during PROCESSING, the rows appended
for it number `max 1 k` where `k` is the number of permissions returned:
an item with no permissions yields exactly one row with zero/empty
permission fields; an item with `k > 0` permissions yields exactly the
`k` rows built from its permissions, all agreeing on every item column
(and on the shared permission count), differing only in the permission
columns. -/
theorem row_expansion_law (perms : String → PermOutcome) (file : DriveFile) :
    (rowsForFile perms file).length = max 1 (getFilePermissions perms file.id).length
    ∧ (∀ r ∈ rowsForFile perms file,
        r.fileName = file.name ∧ r.fileId = file.id ∧ r.owner = ownerOf file
        ∧ r.fileType = getFileType file ∧ r.mimeType = file.mimeType
        ∧ r.createdTime = file.createdTime.getD "" ∧ r.modifiedTime = file.modifiedTime.getD ""
        ∧ r.size = file.size.getD "" ∧ r.url = file.webViewLink.getD "")
    ∧ (getFilePermissions perms file.id = [] →
        rowsForFile perms file = [zeroPermissionRow file]
        ∧ (zeroPermissionRow file).permissionsCount = 0
        ∧ (zeroPermissionRow file).permissionType = ""
        ∧ (zeroPermissionRow file).permissionRole = ""
        ∧ (zeroPermissionRow file).permissionEmail = ""
        ∧ (zeroPermissionRow file).permissionDomain = ""
        ∧ (zeroPermissionRow file).permissionDisplayName = "")
    ∧ (getFilePermissions perms file.id ≠ [] →
        rowsForFile perms file =
          (getFilePermissions perms file.id).map
            (permissionRow file (getFilePermissions perms file.id).length)
        ∧ ∀ r ∈ rowsForFile perms file,
            r.permissionsCount = (getFilePermissions perms file.id).length) := by
  rcases hps : getFilePermissions perms file.id with _ | ⟨p, ps⟩
  · refine ⟨by simp [rowsForFile, hps], ?_, ?_, ?_⟩
    · intro r hr
      simp only [rowsForFile, hps, List.isEmpty_nil, if_true] at hr
      rw [List.mem_singleton.mp hr]
      exact ⟨rfl, rfl, rfl, rfl, rfl, rfl, rfl, rfl, rfl⟩
    · intro _
      refine ⟨by simp [rowsForFile, hps], rfl, rfl, rfl, rfl, rfl, rfl⟩
    · intro hne
      exact absurd rfl hne
  · refine ⟨?_, ?_, ?_, ?_⟩
    · simp only [rowsForFile, hps]
      simp
    · intro r hr
      simp only [rowsForFile, hps, List.isEmpty_cons, if_false] at hr
      rcases List.mem_map.mp hr with ⟨q, hq, rfl⟩
      exact ⟨rfl, rfl, rfl, rfl, rfl, rfl, rfl, rfl, rfl⟩
    · intro habs
      exact absurd habs (by simp)
    · intro _
      constructor
      · simp [rowsForFile, hps]
      · intro r hr
        simp only [rowsForFile, hps, List.isEmpty_cons, if_false] at hr
        rcases List.mem_map.mp hr with ⟨q, hq, rfl⟩
        rfl

/-- Witness for C2 at a concrete file of Scenario C. -/
theorem row_expansion_law_witness :
    rowsForFile envScenarioC.perms fileA =
      (getFilePermissions envScenarioC.perms fileA.id).map
        (permissionRow fileA (getFilePermissions envScenarioC.perms fileA.id).length)
    ∧ (rowsForFile envScenarioC.perms fileA).length
        = max 1 (getFilePermissions envScenarioC.perms fileA.id).length :=
  ⟨((row_expansion_law envScenarioC.perms fileA).2.2.2 (by decide)).1,
   (row_expansion_law envScenarioC.perms fileA).1⟩

/-- C7: a thrown per-item permission fetch is recovered locally: the
item is treated as having an empty permission list and yields its single
zero-permission row; in Scenario C (three items with permission results
two, thrown, one) the invocation appends exactly four rows, reports
COMPLETED and clears the state. -/
theorem permission_failure_recovered :
    (∀ (perms : String → PermOutcome) (file : DriveFile),
        perms file.id = PermOutcome.thrown →
        getFilePermissions perms file.id = []
        ∧ rowsForFile perms file = [zeroPermissionRow file])
    ∧ (processDriveAuditBatch envScenarioC none []).rows.length = 4
    ∧ "COMPLETED" ∈ (processDriveAuditBatch envScenarioC none []).reports.map StatusReport.status
    ∧ (processDriveAuditBatch envScenarioC none []).state = none := by
  refine ⟨?_, by decide, by decide, by decide⟩
  intro perms file h
  constructor
  · simp [getFilePermissions, h]
  · simp [rowsForFile, getFilePermissions, h]

/-- Witness for C7 at the failing item of Scenario C. -/
theorem permission_failure_recovered_witness :
    getFilePermissions envScenarioC.perms fileB.id = []
    ∧ rowsForFile envScenarioC.perms fileB = [zeroPermissionRow fileB] :=
  permission_failure_recovered.1 envScenarioC.perms fileB (by decide)

/-- C8: the cancel operation with stored state (and a confirming user)
deletes the state, deletes all continuation triggers, reports CANCELLED,
and leaves the already-written rows untouched; with no stored state it
is a no-op that reports nothing and raises no error. -/
theorem cancel_semantics (s : AuditState) (ts : List String) (rows : List AuditRow) :
    cancelRunningAudit (some s) ts rows true =
      { state := none, triggers := deleteContinuationTriggers ts,
        reports := [updateAuditStatus "CANCELLED" 0 0], rows := rows,
        outcome := CancelOutcome.cancelled }
    ∧ continuationHandler ∉ (cancelRunningAudit (some s) ts rows true).triggers
    ∧ (∀ confirm : Bool, cancelRunningAudit none ts rows confirm =
        { state := none, triggers := ts, reports := [], rows := rows,
          outcome := CancelOutcome.noAuditRunning }) :=
  ⟨rfl, continuationHandler_not_mem_delete ts, fun _ => rfl⟩

end DriveAudit

namespace DriveAudit

/-- Shape of the PROCESSING-loop event trace: every loop iteration
contributes exactly one time-budget check, placed before the iteration's
page fetch; file visits happen only between a fetch and that page's
state persist, never interleaved with a check; a timed-out iteration
persists, schedules and stops without fetching.  `nil` is the shape of
the artificial out-of-fuel stop. -/
inductive LoopTraceShape : List Ev → Prop where
  | nil : LoopTraceShape []
  | timedOut (e : Nat) (s : AuditState) :
      LoopTraceShape [Ev.timeCheck e, Ev.persistState s, Ev.scheduleContinuation]
  | exhausted (e : Nat) (tok : Option String) :
      LoopTraceShape [Ev.timeCheck e, Ev.fetchPage tok]
  | lastPage (e : Nat) (tok : Option String) (files : List DriveFile) (s : AuditState) :
      files ≠ [] →
      LoopTraceShape ([Ev.timeCheck e, Ev.fetchPage tok]
        ++ files.map (fun file => Ev.procItem file.id) ++ [Ev.persistState s])
  | page (e : Nat) (tok : Option String) (files : List DriveFile) (s : AuditState)
      (rest : List Ev) :
      files ≠ [] → LoopTraceShape rest →
      LoopTraceShape ([Ev.timeCheck e, Ev.fetchPage tok]
        ++ files.map (fun file => Ev.procItem file.id) ++ [Ev.persistState s] ++ rest)

lemma procLoop_trace_shape (env : Env) (fuel : Nat) :
    ∀ (checkIdx filesInBatch : Nat) (st : AuditState) (ts : List String),
      LoopTraceShape (procLoop env fuel checkIdx st filesInBatch ts).trace := by
  induction fuel with
  | zero =>
    intro checkIdx filesInBatch st ts
    exact LoopTraceShape.nil
  | succ fuel ih =>
    intro checkIdx filesInBatch st ts
    rw [procLoop]
    by_cases h : MAX_EXECUTION_TIME < env.elapsedAt checkIdx
    · simp only [if_pos h]
      exact LoopTraceShape.timedOut _ _
    · simp only [if_neg h]
      rcases hL : env.listPage st.pageToken with _ | ⟨files, next⟩
      · simp only [getDriveFilesBatch, hL]
        exact LoopTraceShape.exhausted _ _
      · rcases files with _ | ⟨f, fs⟩
        · simp only [getDriveFilesBatch, hL]
          exact LoopTraceShape.exhausted _ _
        · simp only [getDriveFilesBatch, hL]
          rcases next with _ | tk
          · exact LoopTraceShape.lastPage _ _ _ _ (List.cons_ne_nil f fs)
          · by_cases hb : filesInBatch + (f :: fs).length < BATCH_SIZE
            · simp only [if_pos hb]
              exact LoopTraceShape.page _ _ _ _ _ (List.cons_ne_nil f fs) (ih _ _ _ _)
            · simp only [if_neg hb]
              exact LoopTraceShape.lastPage _ _ _ _ (List.cons_ne_nil f fs)

/-- Checkpoint discipline of the PROCESSING-loop trace, tracked from the
state the loop entered with: whenever a non-empty page is fetched with
the current cursor, a persist of the advanced state (cursor moved to the
page's continuation token, counter raised by the page size) is recorded
before anything further happens; a later page chunk continues from that
persisted state, so every page fetch after the first is preceded by a
persist of the state holding exactly that cursor. -/
inductive PagePersists (env : Env) : AuditState → List Ev → Prop where
  | nil (st : AuditState) : PagePersists env st []
  | stopped (st : AuditState) (e : Nat) :
      PagePersists env st [Ev.timeCheck e, Ev.persistState st, Ev.scheduleContinuation]
  | exhausted (st : AuditState) (e : Nat) :
      PagePersists env st [Ev.timeCheck e, Ev.fetchPage st.pageToken]
  | pageLast (st : AuditState) (e : Nat) (files : List DriveFile) (next : Option String)
      (s : AuditState) :
      env.listPage st.pageToken = ListOutcome.ok files next →
      files ≠ [] →
      s.pageToken = next →
      s.filesProcessed = st.filesProcessed + files.length →
      PagePersists env st ([Ev.timeCheck e, Ev.fetchPage st.pageToken]
        ++ files.map (fun file => Ev.procItem file.id) ++ [Ev.persistState s])
  | page (st : AuditState) (e : Nat) (files : List DriveFile) (next : Option String)
      (s : AuditState) (rest : List Ev) :
      env.listPage st.pageToken = ListOutcome.ok files next →
      files ≠ [] →
      s.pageToken = next →
      s.filesProcessed = st.filesProcessed + files.length →
      PagePersists env s rest →
      PagePersists env st ([Ev.timeCheck e, Ev.fetchPage st.pageToken]
        ++ files.map (fun file => Ev.procItem file.id) ++ [Ev.persistState s] ++ rest)

lemma procLoop_page_persists (env : Env) (fuel : Nat) :
    ∀ (checkIdx filesInBatch : Nat) (st : AuditState) (ts : List String),
      PagePersists env st (procLoop env fuel checkIdx st filesInBatch ts).trace := by
  induction fuel with
  | zero =>
    intro checkIdx filesInBatch st ts
    exact PagePersists.nil st
  | succ fuel ih =>
    intro checkIdx filesInBatch st ts
    rw [procLoop]
    by_cases h : MAX_EXECUTION_TIME < env.elapsedAt checkIdx
    · simp only [if_pos h]
      exact PagePersists.stopped st _
    · simp only [if_neg h]
      rcases hL : env.listPage st.pageToken with _ | ⟨files, next⟩
      · simp only [getDriveFilesBatch, hL]
        exact PagePersists.exhausted _ _
      · rcases files with _ | ⟨f, fs⟩
        · simp only [getDriveFilesBatch, hL]
          exact PagePersists.exhausted _ _
        · simp only [getDriveFilesBatch, hL]
          rcases next with _ | tk
          · exact PagePersists.pageLast st _ (f :: fs) none _ hL
              (List.cons_ne_nil f fs) rfl rfl
          · by_cases hb : filesInBatch + (f :: fs).length < BATCH_SIZE
            · simp only [if_pos hb]
              exact PagePersists.page st _ (f :: fs) (some tk) _ _ hL
                (List.cons_ne_nil f fs) rfl rfl (ih _ _ _ _)
            · simp only [if_neg hb]
              exact PagePersists.pageLast st _ (f :: fs) (some tk) _ hL
                (List.cons_ne_nil f fs) rfl rfl

end DriveAudit

namespace DriveAudit

/-- C3: the time budget is checked exactly once per page iteration,
before the page fetch and never between the items of a page (the trace
of the loop has the chunked shape `LoopTraceShape`); on an iteration
whose elapsed time exceeds the ceiling, the loop persists the current
state, cancels prior continuations and registers exactly one new one,
and the invocation returns without any page fetch. -/
theorem time_budget_once_per_page (env : Env) (fuel checkIdx filesInBatch : Nat)
    (st : AuditState) (ts : List String) :
    LoopTraceShape (procLoop env fuel checkIdx st filesInBatch ts).trace
    ∧ (MAX_EXECUTION_TIME < env.elapsedAt checkIdx → 0 < fuel →
        procLoop env fuel checkIdx st filesInBatch ts =
          { state := st, rows := [], reports := [updateAuditStatus "RUNNING" 0 0],
            trace := [Ev.timeCheck (env.elapsedAt checkIdx), Ev.persistState st,
                      Ev.scheduleContinuation],
            triggers := deleteContinuationTriggers ts ++ [continuationHandler],
            exit := LoopExit.timedOut }
        ∧ (procLoop env fuel checkIdx st filesInBatch ts).triggers.count continuationHandler = 1)
    ∧ (∀ s : AuditState, s.phase = Phase.PROCESSING →
        MAX_EXECUTION_TIME < env.elapsedAt 0 →
        (processDriveAuditBatch env (some s) ts).state = some s
        ∧ (processDriveAuditBatch env (some s) ts).trace =
            [Ev.timeCheck (env.elapsedAt 0), Ev.persistState s, Ev.scheduleContinuation]
        ∧ (processDriveAuditBatch env (some s) ts).triggers.count continuationHandler = 1
        ∧ ∀ tok, Ev.fetchPage tok ∉ (processDriveAuditBatch env (some s) ts).trace) := by
  refine ⟨procLoop_trace_shape env fuel checkIdx filesInBatch st ts, ?_, ?_⟩
  · intro hT hfuel
    rcases fuel with _ | fuel0
    · exact absurd hfuel (by simp)
    · refine ⟨procLoop_timedOut env fuel0 checkIdx filesInBatch st ts hT, ?_⟩
      rw [procLoop_timedOut env fuel0 checkIdx filesInBatch st ts hT]
      exact count_schedule ts
  · intro s hph hT
    have hloop := procLoop_timedOut env BATCH_SIZE 0 0 s ts hT
    have hE : (procLoop env (BATCH_SIZE + 1) 0 s 0 ts).exit = LoopExit.timedOut := by
      rw [hloop]
    rw [pdb_processing env s ts hph, processingPhase_timedOut env s [] ts hE, hloop]
    refine ⟨rfl, by simp, count_schedule ts, ?_⟩
    intro tok
    simp

/-- Witness for C3: a concrete over-budget invocation. -/
theorem time_budget_once_per_page_witness :
    LoopTraceShape (procLoop envTimeout (BATCH_SIZE + 1) 0 (procState 120 (some "t")) 0 []).trace
    ∧ (processDriveAuditBatch envTimeout (some (procState 120 (some "t"))) []).state
        = some (procState 120 (some "t"))
    ∧ (processDriveAuditBatch envTimeout (some (procState 120 (some "t"))) []).triggers.count
        continuationHandler = 1 :=
  ⟨(time_budget_once_per_page envTimeout (BATCH_SIZE + 1) 0 0 (procState 120 (some "t")) []).1,
   ((time_budget_once_per_page envTimeout 1 0 0 (procState 120 (some "t")) []).2.2
      (procState 120 (some "t")) rfl (by decide)).1,
   ((time_budget_once_per_page envTimeout 1 0 0 (procState 120 (some "t")) []).2.2
      (procState 120 (some "t")) rfl (by decide)).2.2.1⟩

/-- C9: the loop trace satisfies the per-page checkpoint discipline:
after every processed page, a persist of the state carrying the advanced
cursor and the raised counter is recorded, and the next page fetch (if
any) happens after that persist, using exactly the cursor that was
persisted — not only when a time-budget checkpoint occurs. -/
theorem checkpoint_after_every_page (env : Env) (fuel checkIdx filesInBatch : Nat)
    (st : AuditState) (ts : List String) :
    PagePersists env st (procLoop env fuel checkIdx st filesInBatch ts).trace :=
  procLoop_page_persists env fuel checkIdx filesInBatch st ts

/-- C4: whenever an invocation reports the terminal COMPLETED or ERROR
status, the stored state is gone and no continuation trigger for the
processing handler remains; the confirmed cancel operation likewise
deletes the state, leaves no continuation trigger, and reports
CANCELLED. -/
theorem terminal_cleanup (env : Env) (stored : Option AuditState) (ts : List String) :
    (("COMPLETED" ∈ (processDriveAuditBatch env stored ts).reports.map StatusReport.status
        ∨ "ERROR" ∈ (processDriveAuditBatch env stored ts).reports.map StatusReport.status) →
      (processDriveAuditBatch env stored ts).state = none
      ∧ continuationHandler ∉ (processDriveAuditBatch env stored ts).triggers)
    ∧ (∀ (s : AuditState) (rows : List AuditRow),
        (cancelRunningAudit (some s) ts rows true).state = none
        ∧ continuationHandler ∉ (cancelRunningAudit (some s) ts rows true).triggers
        ∧ (cancelRunningAudit (some s) ts rows true).reports =
            [updateAuditStatus "CANCELLED" 0 0]) := by
  constructor
  · intro hmem
    rcases pdb_running_or_finalize env stored ts with ⟨st0, tr, re, ro, tg, heq, hrun⟩ | ⟨hent, hrun⟩
    · rw [heq]
      refine ⟨finalizeAudit_state env st0 tr re ro tg, ?_⟩
      rw [finalizeAudit_triggers]
      exact continuationHandler_not_mem_delete tg
    · exfalso
      rcases hmem with hc | hc <;>
        · rcases List.mem_map.mp hc with ⟨r, hr, hstat⟩
          rw [hrun r hr] at hstat
          exact absurd hstat (by decide)
  · intro s rows
    exact ⟨rfl, continuationHandler_not_mem_delete ts, rfl⟩

/-- Witness for C4: the Scenario C run ends in COMPLETED with state and
continuation triggers cleared. -/
theorem terminal_cleanup_witness :
    (processDriveAuditBatch envScenarioC none [continuationHandler]).state = none
    ∧ continuationHandler ∉ (processDriveAuditBatch envScenarioC none [continuationHandler]).triggers :=
  (terminal_cleanup envScenarioC none [continuationHandler]).1 (Or.inl (by decide))

end DriveAudit

namespace DriveAudit

/-- Counterexample to C6 as stated: with an empty drive and a throwing
sheet post-processor, the invocation enters FINALIZING and then reports
ERROR — so ERROR is reachable from FINALIZING. -/
theorem error_reachable_from_finalizing_cx :
    (processDriveAuditBatch envFinThrow none []).enteredFinalizing = true
    ∧ "ERROR" ∈ (processDriveAuditBatch envFinThrow none []).reports.map StatusReport.status := by
  decide

/-- C6 amended: ERROR is reachable from the FINALIZING block as well,
because the top-level catch of `processDriveAuditBatch` wraps it: any
invocation that enters FINALIZING while the sheet post-processing throws
reports ERROR (after the block's initial RUNNING report), deletes the
stored state and cancels the continuation triggers. -/
theorem error_from_finalizing (env : Env) (stored : Option AuditState) (ts : List String)
    (hfin : env.finalizeThrows = true)
    (hent : (processDriveAuditBatch env stored ts).enteredFinalizing = true) :
    "ERROR" ∈ (processDriveAuditBatch env stored ts).reports.map StatusReport.status
    ∧ (processDriveAuditBatch env stored ts).state = none
    ∧ continuationHandler ∉ (processDriveAuditBatch env stored ts).triggers := by
  rcases pdb_running_or_finalize env stored ts with ⟨st0, tr, re, ro, tg, heq, hrun⟩ | ⟨hf, hrun⟩
  · rw [heq]
    refine ⟨?_, finalizeAudit_state env st0 tr re ro tg, ?_⟩
    · rw [finalizeAudit_reports]
      simp [hfin, updateAuditStatus]
    · rw [finalizeAudit_triggers]
      exact continuationHandler_not_mem_delete tg
  · rw [hf] at hent
    exact absurd hent (by decide)

/-- Witness for C6 (amended) at the concrete throwing environment. -/
theorem error_from_finalizing_witness :
    "ERROR" ∈ (processDriveAuditBatch envFinThrow none ["runDriveAudit"]).reports.map
      StatusReport.status
    ∧ (processDriveAuditBatch envFinThrow none ["runDriveAudit"]).state = none
    ∧ continuationHandler ∉ (processDriveAuditBatch envFinThrow none ["runDriveAudit"]).triggers :=
  error_from_finalizing envFinThrow none ["runDriveAudit"] rfl (by decide)

/-- Counterexample to C1 as stated: when the page-listing call throws,
the invocation does NOT report ERROR — it enters FINALIZING and reports
COMPLETED (state is nevertheless cleared). -/
theorem page_fetch_failure_not_error_cx :
    (processDriveAuditBatch envThrown (some (procState 7 (some "t"))) [continuationHandler]).enteredFinalizing = true
    ∧ "COMPLETED" ∈ (processDriveAuditBatch envThrown (some (procState 7 (some "t"))) [continuationHandler]).reports.map StatusReport.status
    ∧ "ERROR" ∉ (processDriveAuditBatch envThrown (some (procState 7 (some "t"))) [continuationHandler]).reports.map StatusReport.status
    ∧ (processDriveAuditBatch envThrown (some (procState 7 (some "t"))) [continuationHandler]).state = none := by
  decide

/-- C1 amended: a thrown page-listing call is caught inside
`getDriveFilesBatch`, which returns null; `processDriveAuditBatch`
treats the null like an exhausted listing, so the job transitions to
FINALIZING in the same invocation and (when finalizing itself succeeds)
reports COMPLETED with the counters accumulated so far — not ERROR.
State is deleted and continuations are cancelled, and the failing page
is never retried, but the failure is indistinguishable from a normal
end of the listing. -/
theorem page_fetch_failure_completes (env : Env) (s : AuditState) (ts : List String)
    (hph : s.phase = Phase.PROCESSING)
    (hthrow : env.listPage s.pageToken = ListOutcome.thrown)
    (htime : ¬ MAX_EXECUTION_TIME < env.elapsedAt 0)
    (hfin : env.finalizeThrows = false) :
    (processDriveAuditBatch env (some s) ts).enteredFinalizing = true
    ∧ (processDriveAuditBatch env (some s) ts).state = none
    ∧ (processDriveAuditBatch env (some s) ts).reports =
        [updateAuditStatus "RUNNING" s.filesProcessed 0,
         updateAuditStatus "RUNNING" s.filesProcessed s.filesProcessed,
         updateAuditStatus "COMPLETED" s.filesProcessed s.filesProcessed]
    ∧ "ERROR" ∉ (processDriveAuditBatch env (some s) ts).reports.map StatusReport.status
    ∧ continuationHandler ∉ (processDriveAuditBatch env (some s) ts).triggers := by
  have hloop := procLoop_thrown env BATCH_SIZE 0 0 s ts htime hthrow
  have hE : (procLoop env (BATCH_SIZE + 1) 0 s 0 ts).exit = LoopExit.exhausted := by
    rw [hloop]
  rw [pdb_processing env s ts hph, processingPhase_exhausted env s [] ts hE, hloop]
  refine ⟨finalizeAudit_entered _ _ _ _ _ _, finalizeAudit_state _ _ _ _ _ _, ?_, ?_, ?_⟩
  · rw [finalizeAudit_reports]
    simp [hfin, updateAuditStatus]
  · rw [finalizeAudit_reports]
    simp [hfin, updateAuditStatus]
  · rw [finalizeAudit_triggers]
    exact continuationHandler_not_mem_delete ts

/-- Witness for C1 (amended) at the concrete throwing environment. -/
theorem page_fetch_failure_completes_witness :
    (processDriveAuditBatch envThrown (some (procState 9 none)) []).enteredFinalizing = true
    ∧ (processDriveAuditBatch envThrown (some (procState 9 none)) []).state = none
    ∧ (processDriveAuditBatch envThrown (some (procState 9 none)) []).reports =
        [updateAuditStatus "RUNNING" 9 0, updateAuditStatus "RUNNING" 9 9,
         updateAuditStatus "COMPLETED" 9 9] :=
  ⟨(page_fetch_failure_completes envThrown (procState 9 none) [] rfl rfl (by decide) rfl).1,
   (page_fetch_failure_completes envThrown (procState 9 none) [] rfl rfl (by decide) rfl).2.1,
   (page_fetch_failure_completes envThrown (procState 9 none) [] rfl rfl (by decide) rfl).2.2.1⟩

/-- Counterexample to C5 as stated: with 120 items already processed and
the budget exceeded at the first check, the checkpoint-time RUNNING
report carries zeroed counters, not the current ones. -/
theorem checkpoint_report_zero_counters_cx :
    (processDriveAuditBatch envTimeout (some (procState 120 (some "t"))) []).reports =
      [updateAuditStatus "RUNNING" 120 0, updateAuditStatus "RUNNING" 0 0]
    ∧ (processDriveAuditBatch envTimeout (some (procState 120 (some "t"))) []).state =
        some (procState 120 (some "t")) := by
  decide

/-- C5 amended: at a time-budget checkpoint the invocation persists the
state with its current counters, but the RUNNING report published by
`scheduleAuditContinuation` carries zeroed counters (src/Code.js:429-432
passes 0, 0); the current counter appears only in the report at the
start of the PROCESSING block and in the per-50-file cadence reports. -/
theorem checkpoint_report_zero_counters (env : Env) (s : AuditState) (ts : List String)
    (hph : s.phase = Phase.PROCESSING) (ht : MAX_EXECUTION_TIME < env.elapsedAt 0) :
    (processDriveAuditBatch env (some s) ts).reports =
      [updateAuditStatus "RUNNING" s.filesProcessed 0, updateAuditStatus "RUNNING" 0 0]
    ∧ (processDriveAuditBatch env (some s) ts).state = some s := by
  have hloop := procLoop_timedOut env BATCH_SIZE 0 0 s ts ht
  have hE : (procLoop env (BATCH_SIZE + 1) 0 s 0 ts).exit = LoopExit.timedOut := by
    rw [hloop]
  rw [pdb_processing env s ts hph, processingPhase_timedOut env s [] ts hE, hloop]
  exact ⟨rfl, rfl⟩

/-- Witness for C5 (amended) at a distinct concrete state. -/
theorem checkpoint_report_zero_counters_witness :
    (processDriveAuditBatch envTimeout (some (procState 31 none)) ["runDriveAudit"]).reports =
      [updateAuditStatus "RUNNING" 31 0, updateAuditStatus "RUNNING" 0 0]
    ∧ (processDriveAuditBatch envTimeout (some (procState 31 none)) ["runDriveAudit"]).state =
        some (procState 31 none) :=
  checkpoint_report_zero_counters envTimeout (procState 31 none) ["runDriveAudit"] rfl (by decide)

end DriveAudit

namespace DriveAudit

/-- Every page the synthetic cursor-length environment returns holds at
most 100 files. -/
lemma envCap_pages_bounded :
    ∀ tok files next, envCap.listPage tok = ListOutcome.ok files next →
      files.length ≤ 100 := by
  intro tok files next h
  rcases tok with _ | sTok
  · simp only [envCap] at h
    injection h with h1 h2
    subst h1
    simp [mkFiles]
  · simp only [envCap] at h
    split_ifs at h <;> (injection h with h1 h2; subst h1; simp [mkFiles])

/-- Counterexample to C10 as stated: with pages of 99,100,100,100,100,100
files and no time pressure, one invocation starting from a fresh
PROCESSING state processes 599 files — more than the claimed hard cap of
500 — before stopping (the guard is checked only before a page). -/
theorem batch_cap_exceeds_500_cx :
    (processDriveAuditBatch envCap (some (procState 0 none)) []).state =
      some { phase := Phase.PROCESSING, totalFilesFound := 0, filesProcessed := 599,
             auditDataCount := 599, pageToken := some "xxxxxx", startTime := "" }
    ∧ BATCH_SIZE <
        storedFilesProcessed (processDriveAuditBatch envCap (some (procState 0 none)) []).state := by
  constructor
  · rfl
  · decide

/-- C10 amended: the batch-size guard `filesInBatch < BATCH_SIZE` is
checked before each page, so with pages of at most 100 files a single
invocation raises `filesProcessed` by at most `BATCH_SIZE - 1 + 100`
(599), not 500; once at least `BATCH_SIZE` files have been processed the
loop stops without moving the phase, and the invocation persists the
state, registers exactly one continuation and returns while still in
PROCESSING. -/
theorem batch_cap_bound (env : Env) (fuel checkIdx filesInBatch : Nat) (st : AuditState)
    (ts : List String)
    (hpages : ∀ tok files next, env.listPage tok = ListOutcome.ok files next →
      files.length ≤ 100)
    (hfib : filesInBatch < BATCH_SIZE) :
    ((procLoop env fuel checkIdx st filesInBatch ts).state.filesProcessed
        ≤ st.filesProcessed + (BATCH_SIZE - 1 - filesInBatch) + 100)
    ∧ ((procLoop env fuel checkIdx st filesInBatch ts).exit = LoopExit.capped →
        (procLoop env fuel checkIdx st filesInBatch ts).state.phase = st.phase)
    ∧ (∀ s : AuditState, s.phase = Phase.PROCESSING →
        (procLoop env (BATCH_SIZE + 1) 0 s 0 ts).exit = LoopExit.capped →
        (processDriveAuditBatch env (some s) ts).state =
          some (procLoop env (BATCH_SIZE + 1) 0 s 0 ts).state
        ∧ (processDriveAuditBatch env (some s) ts).triggers.count continuationHandler = 1
        ∧ (processDriveAuditBatch env (some s) ts).enteredFinalizing = false
        ∧ storedFilesProcessed (processDriveAuditBatch env (some s) ts).state
            ≤ s.filesProcessed + 599) := by
  refine ⟨procLoop_filesProcessed_bound env hpages fuel checkIdx filesInBatch st ts hfib,
          procLoop_capped_phase env fuel checkIdx filesInBatch st ts, ?_⟩
  intro s hph hcap
  rw [pdb_processing env s ts hph, processingPhase_capped env s [] ts hcap]
  refine ⟨rfl, count_schedule _, rfl, ?_⟩
  have hb0 := procLoop_filesProcessed_bound env hpages (BATCH_SIZE + 1) 0 0 s ts
    (by simp [BATCH_SIZE])
  show (procLoop env (BATCH_SIZE + 1) 0 s 0 ts).state.filesProcessed ≤ s.filesProcessed + 599
  simp only [BATCH_SIZE] at hb0 ⊢
  omega

/-- Witness for C10 (amended) at the synthetic paging environment. -/
theorem batch_cap_bound_witness :
    (procLoop envCap (BATCH_SIZE + 1) 0 (procState 0 none) 0 []).state.filesProcessed
      ≤ (procState 0 none).filesProcessed + (BATCH_SIZE - 1 - 0) + 100 :=
  (batch_cap_bound envCap (BATCH_SIZE + 1) 0 0 (procState 0 none) []
    envCap_pages_bounded (by decide)).1

end DriveAudit
